import Mathlib

/-!
# Verification of the `layouts` template-stack library

A shallow embedding of `index.js` (the `Layouts` prototype): the template
store, the falsey/default layout-reference rule (`assertLayout`), the stack
resolver (`createStack`), the stack folder (`stack`), tag/regex construction
(`makeTag`/`makeRegex`), `replaceTag`, `_mergeData` and `render`.

Modelling conventions:
* JavaScript primitive values that flow through layout references are the
  inductive `JSVal` (strings, booleans, numbers, `null`, `undefined`).
* Content strings are modelled as `List Char` (`Str`).
* The body-tag regular expression built by `makeRegex` (the literal
  delimiters and tag joined by `\s*`, with `[](){|}` escaped) is modelled
  semantically by `TagPat` and an executable left-to-right global matcher
  (`replacePat`), with flexible whitespace where the source uses `\s*`.
  Replacement strings are inserted verbatim and never rescanned, as with
  JavaScript `String.prototype.replace` with a string replacement.
* The loader, the Lo-Dash renderer and the `falsey` predicate are external
  packages; where a claim depends on them they are modelled from the spec
  (see the doc comments on `isFalsey` and `renderLayoutM`).
* The unbounded `while` loop of `createStack` is embedded with explicit
  fuel; `none` means the loop was still running after `fuel` iterations,
  so `(∀ fuel, ... = none)` expresses non-termination.
-/

/-- JavaScript primitive values that appear as layout references,
option values and template data values. -/
inductive JSVal where
  | str : String → JSVal
  | bool : Bool → JSVal
  | num : Int → JSVal
  | null
  | undefined
deriving DecidableEq, Repr

/-- JavaScript truthiness for the modelled primitive values. -/
def truthy : JSVal → Bool
  | .str s => !(s == "")
  | .bool b => b
  | .num n => !(n == 0)
  | .null => false
  | .undefined => false

/-- JavaScript property-key coercion (`this.cache[name]` coerces `name`
to a string key). -/
def toKey : JSVal → String
  | .str s => s
  | .bool true => "true"
  | .bool false => "false"
  | .num n => toString n
  | .null => "null"
  | .undefined => "undefined"

/-- Modelled from the spec: the external `falsey` package.  The spec's §3
sentinel set: a value is falsey when it is JavaScript-falsy or one of the
"no"-like keyword strings (the spec names `'false'`, `'null'`, `'nil'`,
`'no'`; the empty string and `0` are JavaScript-falsy). -/
def falseyKeywords : List String := ["false", "null", "nil", "no"]

/-- Modelled from the spec: `isFalsey(val)` is true for JavaScript-falsy
values and for keyword strings in the sentinel set. -/
def isFalsey (v : JSVal) : Bool :=
  if truthy v = false then true
  else match v with
    | .str s => falseyKeywords.contains s
    | _ => false

/-- `Layouts.prototype.assertLayout`:
`if (value === false || (value && isFalsey(value))) return null;
 else if (!value || value === true) return defaultLayout || null;
 else return value;` -/
def assertLayout (value : JSVal) (defaultLayout : Option String) : JSVal :=
  if value = .bool false ∨ (truthy value ∧ isFalsey value) then .null
  else if truthy value = false ∨ value = .bool true then
    match defaultLayout with
    | some d => if d = "" then .null else .str d
    | none => .null
  else value

/-- Content strings, modelled as character lists. -/
abbrev Str := List Char

/-- A stored template record: `{content, layout?, data?, locals?}`.
`layout` is the reference attached by `setLayout`/`pickLayout`
(`undefined` when absent); `data`/`locals` are the record's mappings. -/
structure Template where
  content : Str := []
  layout : JSVal := .undefined
  data : Option (List (String × JSVal)) := none
  locals : Option (List (String × JSVal)) := none
deriving DecidableEq, Repr

/-- The template store: a mapping from name to record
(`this.cache`, a plain object). -/
abbrev Cache := List (String × Template)

/-- Property lookup on the store object. -/
def cacheFind (cache : Cache) (k : String) : Option Template :=
  (cache.find? (fun p => p.1 = k)).map (·.2)

/-- `template.data && template.data.layout`: `undefined` when the record
has no `data` object or its `data` has no `layout` key. -/
def dataLayout (t : Template) : JSVal :=
  match t.data with
  | none => .undefined
  | some d => (d.lookup "layout").getD .undefined

/-- `template.layout || (template.data && template.data.layout)`. -/
def layoutRef (t : Template) : JSVal :=
  if truthy t.layout then t.layout else dataLayout t

/-- One resolution step: look the current name up in the store and pass
its layout reference through `assertLayout`.  (Used to state chain
properties of the loop; the loop body computes exactly this when the
lookup succeeds.) -/
def stepFn (cache : Cache) (dflt : Option String) (n : JSVal) : JSVal :=
  match cacheFind cache (toKey n) with
  | some t => assertLayout (layoutRef t) dflt
  | none => .null

/-- The `while` loop of `Layouts.prototype.createStack`, with explicit
fuel:
`while (name && (prev !== name) && (template = this.cache[name])) {
   stack.unshift(name); prev = name;
   var layout = template.layout || (template.data && template.data.layout);
   name = this.assertLayout(layout, opts.defaultLayout); }`
`none` means the loop was still running when the fuel ran out. -/
def createStackLoop (cache : Cache) (dflt : Option String) :
    Nat → JSVal → JSVal → List JSVal → Option (List JSVal)
  | 0, _, _, _ => none
  | fuel + 1, name, prev, stack =>
    if truthy name = false then some stack
    else if prev = name then some stack
    else match cacheFind cache (toKey name) with
      | none => some stack
      | some t =>
        createStackLoop cache dflt fuel
          (assertLayout (layoutRef t) dflt) name (name :: stack)

theorem createStackLoop_succ_push (cache : Cache) (dflt : Option String)
    (fuel : Nat) (name prev : JSVal) (stack : List JSVal) (t : Template)
    (htr : truthy name = true) (hne : prev ≠ name)
    (hc : cacheFind cache (toKey name) = some t) :
    createStackLoop cache dflt (fuel + 1) name prev stack =
      createStackLoop cache dflt fuel
        (assertLayout (layoutRef t) dflt) name (name :: stack) := by
  simp [createStackLoop, htr, hne, hc]

theorem createStackLoop_succ_stop (cache : Cache) (dflt : Option String)
    (fuel : Nat) (name prev : JSVal) (stack : List JSVal)
    (h : truthy name = false ∨ prev = name ∨
      cacheFind cache (toKey name) = none) :
    createStackLoop cache dflt (fuel + 1) name prev stack = some stack := by
  rcases h with h | h | h
  · simp [createStackLoop, h]
  · simp [createStackLoop, h]
  · unfold createStackLoop
    rcases Decidable.em (truthy name = false) with ht | ht
    · simp [ht]
    · rcases Decidable.em (prev = name) with hp | hp
      · simp [hp]
      · simp [ht, hp, h]

/-- The `defaultTag` option object `{delims, tag}` (a `sep` key may also be
picked up when merged with call options, cf. `makeTag`). -/
structure TagOpts where
  delims : Option (String × String) := none
  tag : Option String := none
  sep : Option String := none
deriving DecidableEq, Repr

/-- The recognized configuration surface of a `Layouts` instance
(`this.options`), restricted to the keys the source reads. -/
structure Options where
  locals : List (String × JSVal) := []
  omitKeys : List String := []
  layoutDelims : Option (String × String) := none
  defaultTag : Option TagOpts := none
  defaultLayout : Option String := none
  delims : Option (String × String) := none
  tag : Option String := none
  sep : Option String := none
  flags : Option String := none
deriving DecidableEq, Repr

/-- An absent per-call options argument. -/
def Options.empty : Options := {}

/-- Overwrite-or-append one key of a string→value mapping (property
assignment on a plain object). -/
def setKey (m : List (String × JSVal)) (k : String) (v : JSVal) :
    List (String × JSVal) :=
  if (m.lookup k).isSome then
    m.map (fun p => if p.1 = k then (k, v) else p)
  else m ++ [(k, v)]

/-- `mixin-deep` on two string→value mappings whose values are primitives:
every key of `b` is written into `a` (later wins). -/
def mergeAssoc (a b : List (String × JSVal)) : List (String × JSVal) :=
  b.foldl (fun acc kv => setKey acc kv.1 kv.2) a

/-- `mixin-deep` on two `defaultTag` objects: keys of `b` win. -/
def mergeTagOpts (a b : TagOpts) : TagOpts :=
  { delims := b.delims <|> a.delims
  , tag := b.tag <|> a.tag
  , sep := b.sep <|> a.sep }

/-- `mixin-deep` on two options objects over the recognized keys: keys
present in `b` win, nested plain objects (`locals`, `defaultTag`) are
merged recursively, arrays (`omitKeys`, `delims` pairs) are replaced. -/
def mergeOptions (a b : Options) : Options :=
  { locals := mergeAssoc a.locals b.locals
  , omitKeys := if b.omitKeys.isEmpty then a.omitKeys else b.omitKeys
  , layoutDelims := b.layoutDelims <|> a.layoutDelims
  , defaultTag :=
      match a.defaultTag, b.defaultTag with
      | some x, some y => some (mergeTagOpts x y)
      | some x, none => some x
      | none, y => y
  , defaultLayout := b.defaultLayout <|> a.defaultLayout
  , delims := b.delims <|> a.delims
  , tag := b.tag <|> a.tag
  , sep := b.sep <|> a.sep
  , flags := b.flags <|> a.flags }

theorem mergeOptions_empty (a : Options) : mergeOptions a Options.empty = a := by
  cases h : a.defaultTag <;>
    (simp [mergeOptions, Options.empty, mergeAssoc, h]; rw [← h])

/-- The compiled body-tag matcher of `makeRegex`, modelled semantically:
the literal left delimiter, tag name and right delimiter (the source
escapes `[](){|}` so the delimiters match literally), joined by the
separator — the default separator `\s*` (`flex = true`) matches any run
of whitespace, any other separator matches literally. -/
structure TagPat where
  left : Str
  tagname : Str
  right : Str
  flex : Bool
  sepLit : Str
deriving DecidableEq, Repr

/-- Whitespace characters recognized by the modelled `\s*`. -/
def isWsChar (c : Char) : Bool :=
  c = ' ' ∨ c = '\t' ∨ c = '\n' ∨ c = '\r'

/-- Match a literal prefix, returning the rest of the input. -/
def stripLit : Str → Str → Option Str
  | [], s => some s
  | _ :: _, [] => none
  | p :: ps, c :: cs => if c = p then stripLit ps cs else none

/-- Greedily drop leading whitespace. -/
def dropWs : Str → Str
  | [] => []
  | c :: cs => if isWsChar c then dropWs cs else c :: cs

/-- Match the separator part of the body-tag pattern. -/
def matchSep (p : TagPat) (s : Str) : Option Str :=
  if p.flex then some (dropWs s) else stripLit p.sepLit s

/-- Match the whole body-tag pattern at the start of `s`, returning the
input that remains after the match. -/
def matchPat (p : TagPat) (s : Str) : Option Str :=
  match stripLit p.left s with
  | none => none
  | some s1 =>
    match matchSep p s1 with
    | none => none
    | some s2 =>
      match stripLit p.tagname s2 with
      | none => none
      | some s3 =>
        match matchSep p s3 with
        | none => none
        | some s4 => stripLit p.right s4

/-- A `Layouts` instance: `this.options`, `this.cache` and the
`this.regex` field assigned by `stack`. -/
structure Layouts where
  options : Options
  cache : Cache
  regex : Option TagPat := none
deriving DecidableEq, Repr

/-- Aggregate replace: the fuel-indexed left-to-right global scan of
`String.prototype.replace(regex, str)` — at each position try the
pattern; on a (non-empty) match emit the replacement verbatim and resume
after the matched text, otherwise keep one character and move on. -/
def replaceAux (p : TagPat) (repl : Str) : Nat → Str → Str
  | 0, s => s
  | _ + 1, [] => []
  | fuel + 1, c :: cs =>
    match matchPat p (c :: cs) with
    | some rest =>
      if rest.length ≤ cs.length then repl ++ replaceAux p repl fuel rest
      else c :: replaceAux p repl fuel cs
    | none => c :: replaceAux p repl fuel cs

/-- `content.replace(regex, repl)` with the global flag. -/
def replacePat (p : TagPat) (repl s : Str) : Str :=
  replaceAux p repl s.length s

/-- `value || dflt` for an optional string option. -/
def jsOrStr (v : Option String) (d : String) : String :=
  match v with
  | some s => if s = "" then d else s
  | none => d

/-- `Layouts.prototype.makeTag` on the merge of the instance `defaultTag`
option with an options object:
`[delims[0], tag, delims[1]].join(sep || ' ')`. -/
def makeTagWith (defaultTag : Option TagOpts)
    (delims : Option (String × String)) (tag sep : Option String) : Str :=
  let dt := defaultTag.getD {}
  let d := (delims <|> dt.delims).getD ("\x7b%=", "%\x7d")
  let t := jsOrStr (tag <|> dt.tag) "body"
  let s := jsOrStr (sep <|> dt.sep) " "
  d.1.toList ++ s.toList ++ t.toList ++ s.toList ++ d.2.toList

/-- `makeTag(opts)` where `opts` is a fully merged options object. -/
def makeTagFromOptions (o : Options) : Str :=
  makeTagWith o.defaultTag o.delims o.tag o.sep

/-- `Layouts.prototype.makeRegex` on the instance and call options:
`merge({sep: '\s*'}, this.options, options)` then the escaped tag as a
global regular expression, modelled as a `TagPat`. -/
def makeRegexM (o : Options) : TagPat :=
  let dt := o.defaultTag.getD {}
  let d := (o.delims <|> dt.delims).getD ("\x7b%=", "%\x7d")
  let t := jsOrStr (o.tag <|> dt.tag) "body"
  let sep := (o.sep <|> dt.sep).getD "\\s*"
  { left := d.1.toList
  , tagname := t.toList
  , right := d.2.toList
  , flex := sep = "\\s*"
  , sepLit := sep.toList }

/-- `Layouts.prototype.defaultOptions`: the option values installed by the
constructor. -/
def defaultOptions : Options :=
  { locals := []
  , omitKeys := ["mergeFn", "content", "delims", "layout"]
  , layoutDelims := some ("\x7b%=", "%\x7d")
  , defaultTag := some { delims := some ("\x7b%=", "%\x7d"), tag := some "body" } }

/-- `new Layouts({cache})`: a fresh instance over a given template cache
with the default options. -/
def Layouts.new (cache : Cache) : Layouts :=
  { options := defaultOptions, cache := cache }

/-- The default `{%= body %}` body tag. -/
def bodyTag : Str := makeTagFromOptions defaultOptions

/-- The compiled default body-tag pattern. -/
def defaultPat : TagPat := makeRegexM defaultOptions

/-- `Layouts.prototype.replaceTag`:
`content.replace(this.makeRegex(options), str)`. -/
def replaceTagFn (st : Layouts) (str content : Str) (callOpts : Options) :
    Str :=
  replacePat (makeRegexM (mergeOptions st.options callOpts)) str content

/-- `Layouts.prototype._mergeData`: build `data` from the template's
`locals` and `data`, strip the `omitKeys`, merge the result into the
instance option `locals` in place (the default `mergeFn` is the deep
merge), and return `this`.  The modelled return value is the updated
instance. -/
def mergeData (st : Layouts) (t : Template) : Layouts :=
  let data := mergeAssoc (t.locals.getD []) (t.data.getD [])
  let kept := data.filter (fun kv => !st.options.omitKeys.contains kv.1)
  { st with options :=
      { st.options with locals := mergeAssoc st.options.locals kept } }

/-- Modelled from the spec: the external Renderer Adapter
(`_.template` with `delims`-generated settings) used by
`Layouts.prototype.renderLayout`.  `renderLayout` always binds the
context key `body` to the body tag built from `_defaultLayout`'s
`tagopts` (the `defaultTag` option, or `{delims, tag}` picked from the
call options when both are present), so the renderer is modelled as the
global expansion of the body-placeholder interpolation to that tag;
other renderer-specific interpolations belong to the external engine and
are left unchanged. -/
def renderLayoutM (opts : Options) (s : Str) : Str :=
  let tagopts : TagOpts :=
    if opts.delims.isSome ∧ opts.tag.isSome then
      { delims := opts.delims, tag := opts.tag }
    else opts.defaultTag.getD {}
  let bodyVar := makeTagWith (some tagopts) none none none
  let d := tagopts.delims.getD ("\x7b%=", "%\x7d")
  let ipat : TagPat :=
    { left := d.1.toList
    , tagname := (jsOrStr tagopts.tag "body").toList
    , right := d.2.toList
    , flex := true
    , sepLit := [] }
  replacePat ipat bodyVar s

/-- `Layouts.prototype.createStack`:
`var opts = merge({}, this.options, options);
 name = this.assertLayout(name, this.option('defaultLayout'));
 ...loop...; return stack;` -/
def createStackFn (st : Layouts) (name : JSVal) (callOpts : Options)
    (fuel : Nat) : Option (List JSVal) :=
  let opts := mergeOptions st.options callOpts
  createStackLoop st.cache opts.defaultLayout fuel
    (assertLayout name st.options.defaultLayout) .null []

/-- The accumulator of the `reduce` in `Layouts.prototype.stack`
(initially `{}`); `data` holds what the source's `acc.data = data`
stores — `_mergeData`'s return value, which is the instance itself. -/
structure StackAcc where
  content : Option Str := none
  data : Option Layouts := none
deriving DecidableEq

/-- The `reduce` of `Layouts.prototype.stack` over the resolved stack:
`var content = acc.content || tag; var tmpl = this.cache[value];
 var data = this._mergeData(tmpl);
 content = content.replace(this.regex, tmpl.content);
 content = this.renderLayout(content, data, opts);
 acc.data = data; acc.content = content; ...`
Returns `none` if a stack entry has no cache record (the source would
throw reading `tmpl.content`; the resolver never produces such a stack). -/
def foldStack (tagS : Str) (pat : TagPat) (opts : Options) :
    Layouts → List JSVal → StackAcc → Option (Layouts × StackAcc)
  | st, [], acc => some (st, acc)
  | st, nm :: rest, acc =>
    match cacheFind st.cache (toKey nm) with
    | none => none
    | some t =>
      let st' := mergeData st t
      let c1 := replacePat pat t.content (acc.content.getD tagS)
      let c2 := renderLayoutM opts c1
      foldStack tagS pat opts st' rest { content := some c2, data := some st' }

/-- `Layouts.prototype.stack`: resolve the stack, merge the call options
into the instance options in place, compile and store `this.regex`, and
fold the stack.  Returns the mutated instance together with the fold
result; `none` when the resolver loop exceeds the fuel. -/
def stackFn (st : Layouts) (name : JSVal) (callOpts : Options)
    (fuel : Nat) : Option (Layouts × StackAcc) :=
  match createStackFn st name callOpts fuel with
  | none => none
  | some stk =>
    let opts := mergeOptions st.options callOpts
    let tagS := makeTagFromOptions opts
    let pat := makeRegexM opts
    let st1 : Layouts := { st with options := opts, regex := some pat }
    foldStack tagS pat opts st1 stk {}

/-- The value returned by `Layouts.prototype.render`:
`{data: layout.data, content: content}`. -/
structure RenderResult where
  data : Option Layouts := none
  content : Str := []
deriving DecidableEq

/-- `Layouts.prototype.render`:
`var layout = this.stack(name, options);
 if (layout.content) { content = layout.content.replace(this.regex, content); }
 return {data: layout.data, content: content};` -/
def renderFn (st : Layouts) (content : Str) (name : JSVal)
    (callOpts : Options) (fuel : Nat) : Option (Layouts × RenderResult) :=
  match stackFn st name callOpts fuel with
  | none => none
  | some (st', acc) =>
    let c :=
      match acc.content with
      | none => content
      | some lc =>
        if lc = [] then content
        else replacePat (st'.regex.getD defaultPat) content lc
    some (st', { data := acc.data, content := c })

/-- The body-placeholder interpolation pattern the modelled renderer uses
at the default configuration. -/
def defaultIpat : TagPat :=
  { left := "\x7b%=".toList
  , tagname := "body".toList
  , right := "%\x7d".toList
  , flex := true
  , sepLit := [] }

/-- A pattern that matches the default `{%= body %}` placeholder with
flexible whitespace: the shape shared by `makeRegex`'s compiled pattern
and the renderer's interpolation pattern under default options. -/
def IsDefaultBodyPat (p : TagPat) : Prop :=
  p.left = "\x7b%=".toList ∧ p.tagname = "body".toList ∧
    p.right = "%\x7d".toList ∧ p.flex = true

theorem defaultPat_isDefault : IsDefaultBodyPat defaultPat := by
  refine ⟨rfl, rfl, rfl, rfl⟩

theorem defaultIpat_isDefault : IsDefaultBodyPat defaultIpat := by
  refine ⟨rfl, rfl, rfl, rfl⟩

theorem makeTagFromOptions_default : makeTagFromOptions defaultOptions = bodyTag :=
  rfl

theorem makeRegexM_default : makeRegexM defaultOptions = defaultPat := rfl

theorem renderLayoutM_default (s : Str) :
    renderLayoutM defaultOptions s = replacePat defaultIpat bodyTag s := rfl

theorem bodyTag_eq :
    bodyTag = ['{', '%', '=', ' ', 'b', 'o', 'd', 'y', ' ', '%', '}'] := rfl

/-- A default-shaped pattern matches the canonical tag at the front of
the input and consumes exactly it. -/
theorem matchPat_bodyTag (p : TagPat) (hp : IsDefaultBodyPat p)
    (rest : Str) : matchPat p (bodyTag ++ rest) = some rest := by
  obtain ⟨h1, h2, h3, h4⟩ := hp
  obtain ⟨l, t, r, f, sl⟩ := p
  simp only at h1 h2 h3 h4
  subst h1; subst h2; subst h3; subst h4
  rfl

/-- A default-shaped pattern cannot match at a character other than `{`. -/
theorem matchPat_none_of_head (p : TagPat) (hp : IsDefaultBodyPat p)
    (c : Char) (cs : Str) (hc : c ≠ '{') : matchPat p (c :: cs) = none := by
  obtain ⟨h1, _, _, _⟩ := hp
  unfold matchPat
  rw [h1]
  simp [stripLit, hc]

/-- Scanning a string containing no `{` leaves it unchanged. -/
theorem replaceAux_no_brace (p : TagPat) (hp : IsDefaultBodyPat p)
    (repl : Str) (fuel : Nat) (s : Str) (hs : '{' ∉ s) :
    replaceAux p repl fuel s = s := by
  induction fuel generalizing s with
  | zero => rfl
  | succ fuel ih =>
    cases s with
    | nil => rfl
    | cons c cs =>
      have hc : c ≠ '{' := fun h => hs (h ▸ List.mem_cons_self c cs)
      have hcs : '{' ∉ cs := fun h => hs (List.mem_cons_of_mem c h)
      simp [replaceAux, matchPat_none_of_head p hp c cs hc, ih cs hcs]

theorem replacePat_no_brace (p : TagPat) (hp : IsDefaultBodyPat p)
    (repl : Str) (s : Str) (hs : '{' ∉ s) : replacePat p repl s = s :=
  replaceAux_no_brace p hp repl s.length s hs

/-- Global replacement on `u ++ bodyTag ++ v`, when `u` and `v` contain no
`{`: exactly the tag occurrence is replaced, and the replacement text is
not rescanned. -/
theorem replaceAux_single (p : TagPat) (hp : IsDefaultBodyPat p)
    (repl : Str) (fuel : Nat) (u v : Str) (hu : '{' ∉ u) (hv : '{' ∉ v)
    (hf : (u ++ bodyTag ++ v).length ≤ fuel) :
    replaceAux p repl fuel (u ++ bodyTag ++ v) = u ++ repl ++ v := by
  induction u generalizing fuel with
  | nil =>
    cases fuel with
    | zero =>
      exfalso
      have h0 : bodyTag.length + v.length ≤ 0 := by
        simpa [List.length_append] using hf
      simp [bodyTag_eq] at h0
    | succ fuel =>
      have hm : matchPat p (bodyTag ++ v) = some v := matchPat_bodyTag p hp v
      rw [bodyTag_eq] at hm
      rw [List.cons_append] at hm
      simp only [List.nil_append]
      rw [bodyTag_eq, List.cons_append]
      unfold replaceAux
      rw [hm]
      have hlen : v.length ≤
          (['%', '=', ' ', 'b', 'o', 'd', 'y', ' ', '%', '}'] ++ v).length := by
        simp [List.length_append]
        omega
      simp [hlen, replaceAux_no_brace p hp repl fuel v hv]
      intro h
      exact absurd h (by omega)
  | cons c u' ih =>
    have hc : c ≠ '{' := fun h => hu (h ▸ List.mem_cons_self c u')
    have hu' : '{' ∉ u' := fun h => hu (List.mem_cons_of_mem c h)
    cases fuel with
    | zero =>
      exfalso
      simp [List.length_append] at hf
    | succ fuel =>
      simp only [List.cons_append]
      unfold replaceAux
      rw [matchPat_none_of_head p hp c (u' ++ bodyTag ++ v) hc]
      have hf' : (u' ++ bodyTag ++ v).length ≤ fuel := by
        simp only [List.cons_append, List.length_cons, List.length_append] at hf ⊢
        omega
      rw [ih fuel hu' hf']

theorem replacePat_single (p : TagPat) (hp : IsDefaultBodyPat p)
    (repl : Str) (u v : Str) (hu : '{' ∉ u) (hv : '{' ∉ v) :
    replacePat p repl (u ++ bodyTag ++ v) = u ++ repl ++ v :=
  replaceAux_single p hp repl (u ++ bodyTag ++ v).length u v hu hv le_rfl

/-- The stack built so far is a resolution chain: each pushed name was
truthy and present in the store, and stepped (via its layout reference
and `assertLayout`) to the name pushed right after it — the head of the
list steps to the loop's current name `nm`. -/
def Chained (cache : Cache) (dflt : Option String) :
    List JSVal → JSVal → Prop
  | [], _ => True
  | m :: rest, nm =>
    truthy m = true ∧ (cacheFind cache (toKey m)).isSome = true ∧
      stepFn cache dflt m = nm ∧ Chained cache dflt rest m

theorem chained_prefix (cache : Cache) (dflt : Option String) :
    ∀ (l₁ l₂ : List JSVal) (nm : JSVal),
      Chained cache dflt (l₁ ++ l₂) nm → Chained cache dflt l₁ nm
  | [], _, _, _ => trivial
  | a :: l₁, l₂, _nm, h =>
    ⟨h.1, h.2.1, h.2.2.1, chained_prefix cache dflt l₁ l₂ a h.2.2.2⟩

theorem chained_mem (cache : Cache) (dflt : Option String) :
    ∀ (q : List JSVal) (nm : JSVal), Chained cache dflt q nm →
      ∀ n ∈ q, truthy n = true ∧ (cacheFind cache (toKey n)).isSome = true := by
  intro q
  induction q with
  | nil => intro nm _ n hn; cases hn
  | cons a rest ih =>
    intro nm h n hn
    rcases List.mem_cons.mp hn with rfl | hn'
    · exact ⟨h.1, h.2.1⟩
    · exact ih a h.2.2.2 n hn'

theorem chained_step_mem (cache : Cache) (dflt : Option String) :
    ∀ (q : List JSVal) (nm : JSVal), Chained cache dflt q nm →
      ∀ n ∈ q, stepFn cache dflt n = nm ∨ stepFn cache dflt n ∈ q := by
  intro q
  induction q with
  | nil => intro nm _ n hn; cases hn
  | cons a rest ih =>
    intro nm h n hn
    rcases List.mem_cons.mp hn with rfl | hn'
    · exact Or.inl h.2.2.1
    · rcases ih a h.2.2.2 n hn' with h1 | h1
      · exact Or.inr (h1 ▸ List.mem_cons_self a rest)
      · exact Or.inr (List.mem_cons_of_mem a h1)

theorem chained_step_ne (cache : Cache) (dflt : Option String) :
    ∀ (q : List JSVal) (a nm : JSVal), Chained cache dflt (a :: q) nm →
      (a :: q).Nodup → nm ≠ a →
      ∀ n ∈ a :: q, stepFn cache dflt n ≠ n := by
  intro q
  induction q with
  | nil =>
    intro a nm h _ hna n hn
    rcases List.mem_cons.mp hn with rfl | hn'
    · rw [h.2.2.1]; exact hna
    · cases hn'
  | cons b rest ih =>
    intro a nm h hnd hna n hn
    rcases List.mem_cons.mp hn with rfl | hn'
    · rw [h.2.2.1]; exact hna
    · have hab : a ≠ b := by
        intro hab
        exact (List.nodup_cons.mp hnd).1 (hab ▸ List.mem_cons_self b rest)
      exact ih b a h.2.2.2 (List.nodup_cons.mp hnd).2 hab n hn'

/-- If the loop's current name lies in a set closed under resolution
steps (every member is truthy, stored, steps inside the set and never to
itself), the loop never terminates: it returns `none` for every fuel. -/
theorem loop_cyc_none (cache : Cache) (dflt : Option String)
    (P : JSVal → Prop)
    (hcl : ∀ n, P n → truthy n = true ∧
      (cacheFind cache (toKey n)).isSome = true ∧
      P (stepFn cache dflt n) ∧ stepFn cache dflt n ≠ n) :
    ∀ (fuel : Nat) (n prev : JSVal) (stack : List JSVal), P n → prev ≠ n →
      createStackLoop cache dflt fuel n prev stack = none := by
  intro fuel
  induction fuel with
  | zero => intro n prev stack _ _; rfl
  | succ fuel ih =>
    intro n prev stack hPn hprev
    obtain ⟨ht, hcs, hPs, hsn⟩ := hcl n hPn
    obtain ⟨t, hfind⟩ := Option.isSome_iff_exists.mp hcs
    have hstep : assertLayout (layoutRef t) dflt = stepFn cache dflt n := by
      simp [stepFn, hfind]
    rw [createStackLoop_succ_push cache dflt fuel n prev stack t ht hprev hfind]
    rw [hstep]
    exact ih (stepFn cache dflt n) n (n :: stack) hPs (Ne.symm hsn)

/-- The `prev` variable mirrors the head of the stack built so far. -/
def PrevOk (prev : JSVal) : List JSVal → Prop
  | [] => True
  | m :: _ => prev = m

/-- Loop soundness for distinctness: whenever the loop terminates from a
duplicate-free chained state, the returned stack is duplicate-free.
A repeated (non-consecutive) name would put the loop on a step-closed
cycle, so it could not have terminated. -/
theorem loop_nodup (cache : Cache) (dflt : Option String) :
    ∀ (fuel : Nat) (name prev : JSVal) (stack out : List JSVal),
      Chained cache dflt stack name → stack.Nodup → PrevOk prev stack →
      createStackLoop cache dflt fuel name prev stack = some out →
      out.Nodup := by
  intro fuel
  induction fuel with
  | zero => intro name prev stack out _ _ _ h; cases h
  | succ fuel ih =>
    intro name prev stack out hchain hnd hprev hrun
    rcases Decidable.em (truthy name = false) with ht | ht
    · rw [createStackLoop_succ_stop cache dflt fuel name prev stack
        (Or.inl ht)] at hrun
      exact (Option.some.injEq _ _ ▸ hrun : stack = out) ▸ hnd
    · have ht' : truthy name = true := by
        cases h : truthy name
        · exact absurd h ht
        · rfl
      rcases Decidable.em (prev = name) with hp | hp
      · rw [createStackLoop_succ_stop cache dflt fuel name prev stack
          (Or.inr (Or.inl hp))] at hrun
        exact (Option.some.injEq _ _ ▸ hrun : stack = out) ▸ hnd
      · cases hfind : cacheFind cache (toKey name) with
        | none =>
          rw [createStackLoop_succ_stop cache dflt fuel name prev stack
            (Or.inr (Or.inr hfind))] at hrun
          exact (Option.some.injEq _ _ ▸ hrun : stack = out) ▸ hnd
        | some t =>
          rw [createStackLoop_succ_push cache dflt fuel name prev stack t
            ht' hp hfind] at hrun
          have hstep : assertLayout (layoutRef t) dflt =
              stepFn cache dflt name := by
            simp [stepFn, hfind]
          rw [hstep] at hrun
          rcases Decidable.em (name ∈ stack) with hmem | hmem
          · exfalso
            obtain ⟨pre, suf, hsplit⟩ := List.append_of_mem hmem
            have hq : Chained cache dflt (pre ++ [name]) name := by
              apply chained_prefix cache dflt (pre ++ [name]) suf name
              rw [List.append_assoc, List.singleton_append, ← hsplit]
              exact hchain
            have hqnd : (pre ++ [name]).Nodup := by
              apply List.Nodup.sublist _ (hsplit ▸ hnd)
              exact List.Sublist.append_left
                ((List.nil_sublist suf).cons₂ name) pre
            cases pre with
            | nil =>
              apply hp
              have := hprev
              rw [hsplit] at this
              exact this
            | cons a pre' =>
              have haprev : prev = a := by
                have := hprev
                rw [hsplit] at this
                exact this
              have hnamea : name ≠ a := fun h => hp (h ▸ haprev.symm).symm
              have hnameq : name ∈ (a :: pre') ++ [name] :=
                List.mem_append.mpr (Or.inr (List.mem_cons_self name []))
              have hclosed : ∀ n, n ∈ (a :: pre') ++ [name] →
                  truthy n = true ∧
                  (cacheFind cache (toKey n)).isSome = true ∧
                  stepFn cache dflt n ∈ (a :: pre') ++ [name] ∧
                  stepFn cache dflt n ≠ n := by
                intro n hn
                refine ⟨(chained_mem cache dflt _ _ hq n hn).1,
                  (chained_mem cache dflt _ _ hq n hn).2, ?_, ?_⟩
                · rcases chained_step_mem cache dflt _ _ hq n hn with h1 | h1
                  · exact h1 ▸ hnameq
                  · exact h1
                · refine chained_step_ne cache dflt (pre' ++ [name]) a name
                    ?_ hqnd hnamea n ?_
                  · exact hq
                  · exact hn
              have hnone := loop_cyc_none cache dflt
                (fun n => n ∈ (a :: pre') ++ [name]) hclosed fuel
                (stepFn cache dflt name) name (name :: stack)
                (hclosed name hnameq).2.2.1
                (Ne.symm (hclosed name hnameq).2.2.2)
              rw [hnone] at hrun
              cases hrun
          · apply ih (stepFn cache dflt name) name (name :: stack) out
            · exact ⟨ht', by simp [hfind], rfl, hchain⟩
            · exact List.nodup_cons.mpr ⟨hmem, hnd⟩
            · rfl
            · exact hrun

/-- One-step case analysis for the resolver loop. -/
theorem createStackLoop_succ_cases (cache : Cache) (dflt : Option String)
    (fuel : Nat) (name prev : JSVal) (stack : List JSVal) :
    createStackLoop cache dflt (fuel + 1) name prev stack = some stack ∨
    ∃ t, cacheFind cache (toKey name) = some t ∧ truthy name = true ∧
      prev ≠ name ∧
      createStackLoop cache dflt (fuel + 1) name prev stack =
        createStackLoop cache dflt fuel
          (assertLayout (layoutRef t) dflt) name (name :: stack) := by
  rcases Decidable.em (truthy name = false) with ht | ht
  · exact Or.inl (createStackLoop_succ_stop cache dflt fuel name prev stack
      (Or.inl ht))
  · have ht' : truthy name = true := by
      cases h : truthy name
      · exact absurd h ht
      · rfl
    rcases Decidable.em (prev = name) with hp | hp
    · exact Or.inl (createStackLoop_succ_stop cache dflt fuel name prev stack
        (Or.inr (Or.inl hp)))
    · cases hfind : cacheFind cache (toKey name) with
      | none =>
        exact Or.inl (createStackLoop_succ_stop cache dflt fuel name prev
          stack (Or.inr (Or.inr hfind)))
      | some t =>
        exact Or.inr ⟨t, rfl, ht', hp,
          createStackLoop_succ_push cache dflt fuel name prev stack t ht'
            hp hfind⟩

/-- Every entry of a returned stack has a record in the store: a missing
layout reference stops the loop before the missing name is pushed. -/
theorem loop_mem_cache (cache : Cache) (dflt : Option String) :
    ∀ (fuel : Nat) (name prev : JSVal) (stack out : List JSVal),
      (∀ m ∈ stack, (cacheFind cache (toKey m)).isSome = true) →
      createStackLoop cache dflt fuel name prev stack = some out →
      ∀ m ∈ out, (cacheFind cache (toKey m)).isSome = true := by
  intro fuel
  induction fuel with
  | zero => intro name prev stack out _ h; cases h
  | succ fuel ih =>
    intro name prev stack out hstack hrun
    rcases createStackLoop_succ_cases cache dflt fuel name prev stack with
      h | ⟨t, hfind, _, _, hpush⟩
    · rw [h] at hrun
      exact (Option.some.injEq _ _ ▸ hrun : stack = out) ▸ hstack
    · rw [hpush] at hrun
      apply ih (assertLayout (layoutRef t) dflt) name (name :: stack) out
        ?_ hrun
      intro m hm
      rcases List.mem_cons.mp hm with rfl | hm'
      · simp [hfind]
      · exact hstack m hm'

/-- A layout-reference value of the shapes the data model allows
(string, boolean, `null`, `undefined` — not a number). -/
def isNameValB : JSVal → Bool
  | .num _ => false
  | _ => true

/-- A value that is a string. -/
def OnlyStr (v : JSVal) : Prop := ∃ s, v = .str s

/-- A value that is `null` or a string — the shape of every
`assertLayout` result on data-model references. -/
def NullOrStr (v : JSVal) : Prop := v = .null ∨ OnlyStr v

theorem defaultNullOrStr (d : Option String) :
    NullOrStr (match d with
      | some x => if x = "" then JSVal.null else JSVal.str x
      | none => JSVal.null) := by
  cases d with
  | none => exact Or.inl rfl
  | some x =>
    by_cases hx : x = ""
    · simp only [if_pos hx]
      exact Or.inl rfl
    · simp only [if_neg hx]
      exact Or.inr ⟨x, rfl⟩

theorem assertLayout_nullOrStr (v : JSVal) (d : Option String)
    (h : isNameValB v = true) : NullOrStr (assertLayout v d) := by
  cases v with
  | num n => simp [isNameValB] at h
  | str s =>
    unfold assertLayout
    split
    · exact Or.inl rfl
    · split
      · exact defaultNullOrStr d
      · exact Or.inr ⟨s, rfl⟩
  | bool b =>
    cases b with
    | false => exact Or.inl rfl
    | true => exact defaultNullOrStr d
  | null => exact defaultNullOrStr d
  | undefined => exact defaultNullOrStr d

/-- A store whose records carry only data-model layout references. -/
def WfCacheB (cache : Cache) : Bool :=
  cache.all (fun pr => isNameValB (layoutRef pr.2))

theorem cacheFind_wf (cache : Cache) (hwf : WfCacheB cache = true)
    (k : String) (t : Template) (h : cacheFind cache k = some t) :
    isNameValB (layoutRef t) = true := by
  obtain ⟨pr, hfind, hpr⟩ := Option.map_eq_some'.mp h
  have hmem : pr ∈ cache := List.mem_of_find?_eq_some hfind
  have := List.all_eq_true.mp hwf pr hmem
  exact hpr ▸ this

/-- On a data-model store, every name the loop pushes is a string. -/
theorem loop_strs (cache : Cache) (dflt : Option String)
    (hwf : WfCacheB cache = true) :
    ∀ (fuel : Nat) (name prev : JSVal) (stack out : List JSVal),
      NullOrStr name → (∀ m ∈ stack, OnlyStr m) →
      createStackLoop cache dflt fuel name prev stack = some out →
      ∀ m ∈ out, OnlyStr m := by
  intro fuel
  induction fuel with
  | zero => intro name prev stack out _ _ h; cases h
  | succ fuel ih =>
    intro name prev stack out hname hstack hrun
    rcases createStackLoop_succ_cases cache dflt fuel name prev stack with
      h | ⟨t, hfind, htr, _, hpush⟩
    · rw [h] at hrun
      exact (Option.some.injEq _ _ ▸ hrun : stack = out) ▸ hstack
    · rw [hpush] at hrun
      have hstr : OnlyStr name := by
        rcases hname with rfl | hs
        · simp [truthy] at htr
        · exact hs
      apply ih (assertLayout (layoutRef t) dflt) name (name :: stack) out
        ?_ ?_ hrun
      · exact assertLayout_nullOrStr (layoutRef t) dflt
          (cacheFind_wf cache hwf (toKey name) t hfind)
      · intro m hm
        rcases List.mem_cons.mp hm with rfl | hm'
        · exact hstr
        · exact hstack m hm'

theorem isFalsey_empty : isFalsey (.str "") = true := by decide

theorem truthy_str_of_not_falsey (s : String)
    (h : isFalsey (.str s) = false) : truthy (.str s) = true := by
  by_cases hs : s = ""
  · rw [hs] at h
    exact absurd h (by decide)
  · simp [truthy, hs]

theorem assertLayout_str (s : String) (d : Option String)
    (h : isFalsey (.str s) = false) : assertLayout (.str s) d = .str s := by
  have htr := truthy_str_of_not_falsey s h
  unfold assertLayout
  rw [if_neg, if_neg]
  · rintro (hc | hc)
    · rw [htr] at hc
      simp at hc
    · exact JSVal.noConfusion hc
  · rintro (hc | ⟨h1, h2⟩)
    · exact JSVal.noConfusion hc
    · rw [h] at h2
      simp at h2

/-- `createStack` unfolded to its loop. -/
theorem createStackFn_eq (st : Layouts) (nm : JSVal) (o : Options)
    (fuel : Nat) :
    createStackFn st nm o fuel =
      createStackLoop st.cache (mergeOptions st.options o).defaultLayout fuel
        (assertLayout nm st.options.defaultLayout) .null [] := rfl

/-- `stack` unfolded: a successful run is a resolver run followed by a
fold from the option-merged, regex-carrying instance. -/
theorem stackFn_eq_some (st : Layouts) (nm : JSVal) (o : Options)
    (fuel : Nat) (s' : Layouts) (r : StackAcc)
    (h : stackFn st nm o fuel = some (s', r)) :
    ∃ stk, createStackFn st nm o fuel = some stk ∧
      foldStack (makeTagFromOptions (mergeOptions st.options o))
        (makeRegexM (mergeOptions st.options o)) (mergeOptions st.options o)
        { st with options := mergeOptions st.options o
                , regex := some (makeRegexM (mergeOptions st.options o)) }
        stk {} = some (s', r) := by
  unfold stackFn at h
  cases hcs : createStackFn st nm o fuel with
  | none => rw [hcs] at h; cases h
  | some stk =>
    rw [hcs] at h
    exact ⟨stk, rfl, h⟩

/-- The fold only rewrites the `locals` option: cache, regex and every
other option field of the instance survive unchanged. -/
theorem foldStack_preserves (tagS : Str) (pat : TagPat) (opts : Options) :
    ∀ (stk : List JSVal) (st : Layouts) (acc : StackAcc)
      (st' : Layouts) (acc' : StackAcc),
      foldStack tagS pat opts st stk acc = some (st', acc') →
      st'.cache = st.cache ∧ st'.regex = st.regex ∧
      st'.options = { st.options with locals := st'.options.locals } := by
  intro stk
  induction stk with
  | nil =>
    intro st acc st' acc' h
    cases h
    exact ⟨rfl, rfl, rfl⟩
  | cons nm rest ih =>
    intro st acc st' acc' h
    unfold foldStack at h
    cases hfind : cacheFind st.cache (toKey nm) with
    | none => rw [hfind] at h; cases h
    | some t =>
      rw [hfind] at h
      exact ih (mergeData st t) _ st' acc' h

/-- Claim C3, counterexample: for the JavaScript-falsy inputs `''` and
`0`, `assertLayout(value, 'base')` returns `'base'`, not `null` — the
guard `value && isFalsey(value)` short-circuits on falsy values, which
then fall into the `!value` default branch. -/
theorem c3_counterexample :
    assertLayout (.str "") (some "base") = .str "base" ∧
    assertLayout (.str "") (some "base") ≠ .null ∧
    assertLayout (.num 0) (some "base") = .str "base" ∧
    assertLayout (.num 0) (some "base") ≠ .null := by decide

/-- Claim C3 as amended: `assertLayout` with default `'base'` returns
`null` for `false` and the keyword strings `'false'`, `'null'`, `'nil'`,
`'no'`, but returns the default `'base'` for the JavaScript-falsy values
`''` and `0`. -/
theorem c3_theorem :
    assertLayout (.bool false) (some "base") = .null ∧
    assertLayout (.str "false") (some "base") = .null ∧
    assertLayout (.str "null") (some "base") = .null ∧
    assertLayout (.str "nil") (some "base") = .null ∧
    assertLayout (.str "no") (some "base") = .null ∧
    assertLayout (.str "") (some "base") = .str "base" ∧
    assertLayout (.num 0) (some "base") = .str "base" := by decide

/-- Claim C6: with the default options the compiled body-tag pattern is
built from the `defaultTag` delimiters `['{%=', '%}']`, so
`replaceTag('ABC', 'Before {% body %} After')` finds no match and
returns its input unchanged, while `'Before {%= body %} After'` is
replaced as the spec and the project README describe. -/
theorem c6_theorem :
    replaceTagFn (Layouts.new []) "ABC".toList
      "Before {% body %} After".toList Options.empty =
      "Before {% body %} After".toList ∧
    replaceTagFn (Layouts.new []) "ABC".toList
      "Before {%= body %} After".toList Options.empty =
      "Before ABC After".toList := by decide

/-- The store of the spec's data-merge scenario:
`{a: {content: '{% body %}', data: {title: 'A'}}}`. -/
def storeC5 : Cache :=
  [("a", { content := "{% body %}".toList
         , data := some [("title", JSVal.str "A")] })]

/-- Claim C5: folding the stack for `a` returns an accumulator whose
`data` field is the `Layouts` instance itself (`_mergeData` returns
`this` and discards the data object it built), while the merged pair
`title ↦ 'A'` ends up inside the instance's `options.locals`, not as a
key of the returned `data`. -/
theorem c5_theorem :
    (stackFn (Layouts.new storeC5) (.str "a") Options.empty 5).map
      (fun p => (decide (p.2.data = some p.1),
        p.1.options.locals.lookup "title"))
      = some (true, some (JSVal.str "A")) := by decide

/-- A store used to observe cross-call persistence of merged data. -/
def storeC8 : Cache :=
  [ ("a", { content := "{%= body %}".toList
          , data := some [("title", JSVal.str "A")] })
  , ("b", { content := "bb".toList }) ]

/-- Claim C8, counterexample: after `stack('a')` has run, the pair
`title ↦ 'A'` merged from `a`'s data persists in the instance's
`options.locals`, so a subsequent `stack('b')` on the same instance
observes it — on a fresh instance `stack('b')` does not. -/
theorem c8_counterexample :
    ((stackFn (Layouts.new storeC8) (.str "a") Options.empty 5).bind
        (fun p => stackFn p.1 (.str "b") Options.empty 5)).map
        (fun p => p.1.options.locals.lookup "title")
      = some (some (JSVal.str "A")) ∧
    (stackFn (Layouts.new storeC8) (.str "b") Options.empty 5).map
        (fun p => p.1.options.locals.lookup "title")
      = some none := by decide

/-- Claim C8 as amended: the resolved stack is recomputed from scratch
each call — `createStack` is unaffected by whatever `locals` earlier
calls accumulated on the instance — but the folded context is not
ephemeral: the data merged while folding `a` persists in the instance's
`options.locals` and is observed by later calls. -/
theorem c8_theorem :
    (∀ (st : Layouts) (L : List (String × JSVal)) (nm : JSVal)
      (o : Options) (fuel : Nat),
      createStackFn { st with options := { st.options with locals := L } }
        nm o fuel = createStackFn st nm o fuel) ∧
    (stackFn (Layouts.new storeC8) (.str "a") Options.empty 5).map
      (fun p => p.1.options.locals.lookup "title")
      = some (some (JSVal.str "A")) := by
  constructor
  · intro st L nm o fuel
    rfl
  · decide

/-- Claim C9: every stack `createStack` returns is duplicate-free — a
non-consecutive repeat would place the loop on a resolution cycle, in
which case it never returns at all. -/
theorem c9_theorem (st : Layouts) (nm : JSVal) (o : Options) (fuel : Nat)
    (out : List JSVal) (h : createStackFn st nm o fuel = some out) :
    out.Nodup := by
  rw [createStackFn_eq] at h
  exact loop_nodup st.cache (mergeOptions st.options o).defaultLayout fuel
    (assertLayout nm st.options.defaultLayout) .null [] out trivial
    List.nodup_nil trivial h

/-- A small two-layout chain store. -/
def storeC9 : Cache :=
  [("a", { layout := JSVal.str "b" }), ("b", {})]

theorem c9_witness : ([JSVal.str "b", JSVal.str "a"] : List JSVal).Nodup :=
  c9_theorem (Layouts.new storeC9) (.str "a") Options.empty 5
    [JSVal.str "b", JSVal.str "a"] (by decide)

/-- The mutually recursive store: `A.layout = 'B'`, `B.layout = 'A'`. -/
def storeCyc : Cache :=
  [("A", { layout := JSVal.str "B" }), ("B", { layout := JSVal.str "A" })]

/-- Claim C2, counterexample: on the two-entry store where `A`'s layout
names `B` and `B`'s names `A`, `createStack('A')` is still running after
30 loop iterations — far beyond the store size — because the cycle guard
compares only the immediately previous name. -/
theorem c2_counterexample :
    createStackFn (Layouts.new storeCyc) (.str "A") Options.empty 30 =
      none := by decide

/-- Claim C2 as amended: `createStack` need not terminate — on the
`A ↔ B` store the loop is still running after every finite number of
iterations — while on a data-model store (string references) any
terminating run pushes pairwise-distinct stored names, so its iteration
count is bounded by the number of store entries. -/
theorem c2_theorem :
    (∀ fuel : Nat, createStackFn (Layouts.new storeCyc) (.str "A")
      Options.empty fuel = none) ∧
    (∀ (st : Layouts) (nm : JSVal) (o : Options) (fuel : Nat)
      (out : List JSVal), WfCacheB st.cache = true → isNameValB nm = true →
      createStackFn st nm o fuel = some out →
      out.length ≤ st.cache.length) := by
  constructor
  · intro fuel
    have hcl : ∀ n, n ∈ ([JSVal.str "A", JSVal.str "B"] : List JSVal) →
        truthy n = true ∧ (cacheFind storeCyc (toKey n)).isSome = true ∧
        stepFn storeCyc none n ∈ ([JSVal.str "A", JSVal.str "B"] : List JSVal) ∧
        stepFn storeCyc none n ≠ n := by
      intro n hn
      rcases List.mem_cons.mp hn with rfl | hn'
      · exact ⟨by decide, by decide, by decide, by decide⟩
      · rcases List.mem_cons.mp hn' with rfl | hn''
        · exact ⟨by decide, by decide, by decide, by decide⟩
        · cases hn''
    have h := loop_cyc_none storeCyc none
      (fun n => n ∈ ([JSVal.str "A", JSVal.str "B"] : List JSVal)) hcl fuel
      (JSVal.str "A") .null [] (by decide) (by decide)
    rw [createStackFn_eq]
    exact h
  · intro st nm o fuel out hwf hnv hrun
    rw [createStackFn_eq] at hrun
    have hnd : out.Nodup :=
      loop_nodup st.cache (mergeOptions st.options o).defaultLayout fuel
        (assertLayout nm st.options.defaultLayout) .null [] out trivial
        List.nodup_nil trivial hrun
    have hstr : ∀ m ∈ out, OnlyStr m :=
      loop_strs st.cache (mergeOptions st.options o).defaultLayout hwf fuel
        (assertLayout nm st.options.defaultLayout) .null [] out
        (assertLayout_nullOrStr nm st.options.defaultLayout hnv)
        (by intro m hm; cases hm) hrun
    have hmem : ∀ m ∈ out, (cacheFind st.cache (toKey m)).isSome = true :=
      loop_mem_cache st.cache (mergeOptions st.options o).defaultLayout fuel
        (assertLayout nm st.options.defaultLayout) .null [] out
        (by intro m hm; cases hm) hrun
    have hmapnd : (out.map toKey).Nodup := by
      apply List.Nodup.map_on ?_ hnd
      intro x hx y hy hxy
      obtain ⟨a, rfl⟩ := hstr x hx
      obtain ⟨b, rfl⟩ := hstr y hy
      simp [toKey] at hxy
      rw [hxy]
    have hsub : out.map toKey ⊆ st.cache.map Prod.fst := by
      intro k hk
      obtain ⟨m, hm, rfl⟩ := List.mem_map.mp hk
      obtain ⟨t, hfind⟩ := Option.isSome_iff_exists.mp (hmem m hm)
      obtain ⟨pr, hfd, hpr⟩ := Option.map_eq_some'.mp hfind
      have hmem2 : pr ∈ st.cache := List.mem_of_find?_eq_some hfd
      have hkey : pr.1 = toKey m := by
        have := List.find?_some hfd
        simpa using this
      exact hkey ▸ List.mem_map_of_mem Prod.fst hmem2
    calc out.length = (out.map toKey).length := (List.length_map out toKey).symm
      _ ≤ (st.cache.map Prod.fst).length :=
          (hmapnd.subperm hsub).length_le
      _ = st.cache.length := List.length_map st.cache Prod.fst

theorem c2_witness :
    createStackFn (Layouts.new storeCyc) (.str "A") Options.empty 9 =
      none ∧
    ([JSVal.str "b", JSVal.str "a"] : List JSVal).length ≤
      (Layouts.new storeC9).cache.length :=
  ⟨c2_theorem.1 9,
    c2_theorem.2 (Layouts.new storeC9) (.str "a") Options.empty 5
      [JSVal.str "b", JSVal.str "a"] (by decide) (by decide) (by decide)⟩

/-- A chain whose second layout references a name with no store record:
`a → b → missing`. -/
def storeC7 : Cache :=
  [ ("a", { layout := JSVal.str "b" })
  , ("b", { layout := JSVal.str "missing" }) ]

/-- Claim C7: resolution stops silently at a reference with no store
record — every name in a returned stack has a record, so the missing
name never appears; on the `a → b → missing` chain the returned stack is
exactly `['b', 'a']`. -/
theorem c7_theorem :
    (∀ (st : Layouts) (nm : JSVal) (o : Options) (fuel : Nat)
      (out : List JSVal), createStackFn st nm o fuel = some out →
      ∀ m ∈ out, (cacheFind st.cache (toKey m)).isSome = true) ∧
    createStackFn (Layouts.new storeC7) (.str "a") Options.empty 5 =
      some [JSVal.str "b", JSVal.str "a"] := by
  constructor
  · intro st nm o fuel out h m hm
    rw [createStackFn_eq] at h
    exact loop_mem_cache st.cache (mergeOptions st.options o).defaultLayout
      fuel (assertLayout nm st.options.defaultLayout) .null [] out
      (by intro x hx; cases hx) h m hm
  · decide

theorem c7_witness :
    (cacheFind (Layouts.new storeC7).cache
      (toKey (JSVal.str "b"))).isSome = true :=
  c7_theorem.1 (Layouts.new storeC7) (.str "a") Options.empty 5
    [JSVal.str "b", JSVal.str "a"] (by decide) (JSVal.str "b") (by decide)

/-- Claim C10: a per-call options argument to `stack` (and hence to
`render`) is merged into the instance's options object in place —
after the call every option field except the data-accumulating `locals`
equals the merge of the old instance options with the call options, and
the instance field `regex` is overwritten with the pattern compiled for
this call. -/
theorem c10_theorem (st : Layouts) (nm : JSVal) (o : Options) (cont : Str)
    (fuel : Nat) :
    (∀ (s' : Layouts) (r : StackAcc), stackFn st nm o fuel = some (s', r) →
      s'.options =
        { mergeOptions st.options o with locals := s'.options.locals } ∧
      s'.regex = some (makeRegexM (mergeOptions st.options o))) ∧
    (∀ (s' : Layouts) (r : RenderResult),
      renderFn st cont nm o fuel = some (s', r) →
      s'.options =
        { mergeOptions st.options o with locals := s'.options.locals } ∧
      s'.regex = some (makeRegexM (mergeOptions st.options o))) := by
  constructor
  · intro s' r h
    obtain ⟨stk, _, hfold⟩ := stackFn_eq_some st nm o fuel s' r h
    obtain ⟨_, hregex, hopts⟩ := foldStack_preserves _ _ _ stk _ _ s' r hfold
    exact ⟨hopts, hregex⟩
  · intro s' r h
    unfold renderFn at h
    cases hst : stackFn st nm o fuel with
    | none => rw [hst] at h; cases h
    | some p =>
      rw [hst] at h
      obtain ⟨s1, acc⟩ := p
      obtain ⟨stk, _, hfold⟩ := stackFn_eq_some st nm o fuel s1 acc hst
      obtain ⟨_, hregex, hopts⟩ :=
        foldStack_preserves _ _ _ stk _ _ s1 acc hfold
      cases h
      exact ⟨hopts, hregex⟩

/-- A concrete per-call options object. -/
def optsC10 : Options := { defaultLayout := some "d10" }

/-- The instance state after `stack` has merged `optsC10` in. -/
def stateC10 : Layouts :=
  { options := mergeOptions (Layouts.new []).options optsC10
  , cache := []
  , regex := some (makeRegexM (mergeOptions (Layouts.new []).options optsC10)) }

theorem c10_witness :
    stateC10.options = { mergeOptions (Layouts.new []).options optsC10 with
      locals := stateC10.options.locals } ∧
    stateC10.regex =
      some (makeRegexM (mergeOptions (Layouts.new []).options optsC10)) :=
  (c10_theorem (Layouts.new []) .null optsC10 [] 1).1 stateC10 {} (by decide)

theorem foldStack_nil (tagS : Str) (pat : TagPat) (opts : Options)
    (st : Layouts) (acc : StackAcc) :
    foldStack tagS pat opts st [] acc = some (st, acc) := rfl

theorem foldStack_cons (tagS : Str) (pat : TagPat) (opts : Options)
    (st : Layouts) (nm : JSVal) (t : Template) (rest : List JSVal)
    (acc : StackAcc) (hfind : cacheFind st.cache (toKey nm) = some t) :
    foldStack tagS pat opts st (nm :: rest) acc =
      foldStack tagS pat opts (mergeData st t) rest
        { content := some (renderLayoutM opts
            (replacePat pat t.content (acc.content.getD tagS)))
        , data := some (mergeData st t) } := by
  conv_lhs => unfold foldStack
  rw [hfind]

theorem stackFn_some_eq (st : Layouts) (nm : JSVal) (o : Options)
    (fuel : Nat) (stk : List JSVal)
    (h : createStackFn st nm o fuel = some stk) :
    stackFn st nm o fuel =
      foldStack (makeTagFromOptions (mergeOptions st.options o))
        (makeRegexM (mergeOptions st.options o)) (mergeOptions st.options o)
        { st with options := mergeOptions st.options o
                , regex := some (makeRegexM (mergeOptions st.options o)) }
        stk {} := by
  unfold stackFn
  rw [h]

theorem renderFn_some (st : Layouts) (cont : Str) (nm : JSVal) (o : Options)
    (fuel : Nat) (s' : Layouts) (acc : StackAcc) (lc : Str)
    (hstack : stackFn st nm o fuel = some (s', acc))
    (hacc : acc.content = some lc) (hne : lc ≠ []) :
    renderFn st cont nm o fuel =
      some (s', { data := acc.data
                , content := replacePat (s'.regex.getD defaultPat) cont lc }) := by
  simp only [renderFn, hstack, hacc]
  rw [if_neg hne]

theorem renderFn_no_content (st : Layouts) (cont : Str) (nm : JSVal)
    (o : Options) (fuel : Nat) (s' : Layouts) (acc : StackAcc)
    (hstack : stackFn st nm o fuel = some (s', acc))
    (hacc : acc.content = none) :
    renderFn st cont nm o fuel =
      some (s', { data := acc.data, content := cont }) := by
  simp only [renderFn, hstack, hacc]

/-- A store with one template registered under `n`, no layout reference. -/
def storeC4 : Cache := [("n", { content := "hey".toList })]

/-- Claim C4, counterexample: for the registered template `n` with no
layout reference, `createStack('n')` returns the one-element stack
`['n']`, not the empty stack, and `render('X', 'n')` returns `n`'s
content with `X` substituted (here `'hey'`, which has no placeholder),
not `'X'` unchanged. -/
theorem c4_counterexample :
    createStackFn (Layouts.new storeC4) (.str "n") Options.empty 5 =
      some [JSVal.str "n"] ∧
    ([JSVal.str "n"] : List JSVal) ≠ ([] : List JSVal) ∧
    (renderFn (Layouts.new storeC4) "X".toList (.str "n") Options.empty 5).map
      (fun q => q.2.content) = some "hey".toList ∧
    "hey".toList ≠ "X".toList := by decide

/-- Claim C4 as amended: for a template registered under `n` with no
layout reference (and `n` not a falsey keyword, no `defaultLayout`
configured), `createStack(n)` returns the one-element stack `[n]` and
`render(content, n)` returns `content` substituted into `n`'s own
content at its body placeholder; `createStack` returns the empty stack
and `render` returns `content` unchanged exactly when the starting
reference resolves to `null`. -/
theorem c4_theorem :
    (∀ (cache : Cache) (n : String) (t : Template),
      cacheFind cache n = some t → isFalsey (.str n) = false →
      t.layout = .undefined → dataLayout t = .undefined →
      createStackFn (Layouts.new cache) (.str n) Options.empty 3 =
        some [JSVal.str n]) ∧
    (∀ (cache : Cache) (n : String) (t : Template) (b₁ b₂ p : Str),
      cacheFind cache n = some t → isFalsey (.str n) = false →
      t.layout = .undefined → dataLayout t = .undefined →
      t.content = b₁ ++ bodyTag ++ b₂ → '{' ∉ b₁ → '{' ∉ b₂ →
      (renderFn (Layouts.new cache) p (.str n) Options.empty 3).map
        (fun q => q.2.content) = some (b₁ ++ p ++ b₂)) ∧
    (∀ (st : Layouts) (p : Str) (nm : JSVal),
      assertLayout nm st.options.defaultLayout = .null →
      (renderFn st p nm Options.empty 2).map
        (fun q => q.2.content) = some p) := by
  have hstack : ∀ (cache : Cache) (n : String) (t : Template),
      cacheFind cache n = some t → isFalsey (.str n) = false →
      t.layout = .undefined → dataLayout t = .undefined →
      createStackFn (Layouts.new cache) (.str n) Options.empty 3 =
        some [JSVal.str n] := by
    intro cache n t hfind hnf hlay hdata
    rw [createStackFn_eq]
    rw [assertLayout_str n (Layouts.new cache).options.defaultLayout hnf]
    have htr := truthy_str_of_not_falsey n hnf
    have hnull : (JSVal.null : JSVal) ≠ .str n := fun h => JSVal.noConfusion h
    rw [createStackLoop_succ_push (Layouts.new cache).cache
      (mergeOptions (Layouts.new cache).options Options.empty).defaultLayout
      2 (.str n) .null [] t htr hnull hfind]
    have hlr : layoutRef t = .undefined := by
      simp [layoutRef, hlay, truthy, hdata]
    rw [hlr, mergeOptions_empty]
    rfl
  refine ⟨hstack, ?_, ?_⟩
  · intro cache n t b₁ b₂ p hfind hnf hlay hdata hcont hb1 hb2
    have hcs := hstack cache n t hfind hnf hlay hdata
    have hsf := stackFn_some_eq (Layouts.new cache) (.str n) Options.empty 3
      [JSVal.str n] hcs
    rw [mergeOptions_empty] at hsf
    rw [show (Layouts.new cache).options = defaultOptions from rfl] at hsf
    rw [makeTagFromOptions_default, makeRegexM_default] at hsf
    rw [foldStack_cons bodyTag defaultPat defaultOptions _ (JSVal.str n) t []
      {} hfind] at hsf
    rw [foldStack_nil] at hsf
    have hgetD : (({} : StackAcc).content.getD bodyTag) = bodyTag := rfl
    rw [hgetD] at hsf
    have hc1 : replacePat defaultPat t.content bodyTag = t.content := by
      have h := replacePat_single defaultPat defaultPat_isDefault t.content
        [] [] (by simp) (by simp)
      simpa using h
    have hc2 : renderLayoutM defaultOptions t.content =
        b₁ ++ bodyTag ++ b₂ := by
      rw [renderLayoutM_default, hcont]
      exact replacePat_single defaultIpat defaultIpat_isDefault bodyTag
        b₁ b₂ hb1 hb2
    rw [hc1, hc2] at hsf
    have hne : b₁ ++ bodyTag ++ b₂ ≠ [] := by simp [bodyTag_eq]
    have hr := renderFn_some (Layouts.new cache) p (.str n) Options.empty 3
      _ _ (b₁ ++ bodyTag ++ b₂) hsf rfl hne
    rw [hr]
    simp only [Option.map_some']
    show some (replacePat defaultPat p (b₁ ++ bodyTag ++ b₂)) =
      some (b₁ ++ p ++ b₂)
    rw [replacePat_single defaultPat defaultPat_isDefault p b₁ b₂ hb1 hb2]
  · intro st p nm h
    have hcs : createStackFn st nm Options.empty 2 = some [] := by
      rw [createStackFn_eq, h]
      rfl
    have hsf := stackFn_some_eq st nm Options.empty 2 [] hcs
    rw [foldStack_nil] at hsf
    rw [renderFn_no_content st p nm Options.empty 2 _ {} hsf rfl]
    rfl

theorem foldStack_cons_start (tagS : Str) (pat : TagPat) (opts : Options)
    (st : Layouts) (nm : JSVal) (t : Template) (rest : List JSVal)
    (hfind : cacheFind st.cache (toKey nm) = some t) :
    foldStack tagS pat opts st (nm :: rest) {} =
      foldStack tagS pat opts (mergeData st t) rest
        { content := some (renderLayoutM opts (replacePat pat t.content tagS))
        , data := some (mergeData st t) } :=
  foldStack_cons tagS pat opts st nm t rest {} hfind

theorem foldStack_cons_some (tagS : Str) (pat : TagPat) (opts : Options)
    (st : Layouts) (nm : JSVal) (t : Template) (rest : List JSVal)
    (lc : Str) (d : Option Layouts)
    (hfind : cacheFind st.cache (toKey nm) = some t) :
    foldStack tagS pat opts st (nm :: rest)
        { content := some lc, data := d } =
      foldStack tagS pat opts (mergeData st t) rest
        { content := some (renderLayoutM opts (replacePat pat t.content lc))
        , data := some (mergeData st t) } :=
  foldStack_cons tagS pat opts st nm t rest
    { content := some lc, data := d } hfind

/-- Claim C1: for any store containing `A` with layout field `B` and `B`
with layout `null` (and no `data.layout` fallback on `B`),
`createStack(A)` returns `['B', 'A']`; with each content carrying its
body placeholder, `render(content, A)` produces `content` wrapped in
`A`'s content at its placeholder and that result wrapped in `B`'s
content at `B`'s placeholder. -/
theorem c1_theorem (cache : Cache) (nA nB : String) (tA tB : Template)
    (a₁ a₂ b₁ b₂ p : Str)
    (hA : cacheFind cache nA = some tA) (hB : cacheFind cache nB = some tB)
    (hlayA : tA.layout = .str nB)
    (hlayB : tB.layout = .null) (hdataB : dataLayout tB = .undefined)
    (hAB : nA ≠ nB)
    (hnA : isFalsey (.str nA) = false) (hnB : isFalsey (.str nB) = false)
    (hcontA : tA.content = a₁ ++ bodyTag ++ a₂)
    (hcontB : tB.content = b₁ ++ bodyTag ++ b₂)
    (ha1 : '{' ∉ a₁) (ha2 : '{' ∉ a₂) (hb1 : '{' ∉ b₁) (hb2 : '{' ∉ b₂) :
    createStackFn (Layouts.new cache) (.str nA) Options.empty 4 =
      some [JSVal.str nB, JSVal.str nA] ∧
    (renderFn (Layouts.new cache) p (.str nA) Options.empty 4).map
      (fun q => q.2.content) = some (b₁ ++ a₁ ++ p ++ a₂ ++ b₂) := by
  have hlrA : layoutRef tA = .str nB := by
    simp [layoutRef, hlayA, truthy_str_of_not_falsey nB hnB]
  have hlrB : layoutRef tB = .undefined := by
    simp [layoutRef, hlayB, truthy, hdataB]
  have htrA := truthy_str_of_not_falsey nA hnA
  have htrB := truthy_str_of_not_falsey nB hnB
  have hprevA : (JSVal.null : JSVal) ≠ .str nA := fun h => JSVal.noConfusion h
  have hprevB : (JSVal.str nA : JSVal) ≠ .str nB := fun h =>
    hAB (JSVal.str.injEq nA nB ▸ h)
  have hstk : createStackFn (Layouts.new cache) (.str nA) Options.empty 4 =
      some [JSVal.str nB, JSVal.str nA] := by
    rw [createStackFn_eq, mergeOptions_empty]
    rw [assertLayout_str nA (Layouts.new cache).options.defaultLayout hnA]
    rw [createStackLoop_succ_push (Layouts.new cache).cache
      (Layouts.new cache).options.defaultLayout 3 (.str nA) .null [] tA
      htrA hprevA hA]
    rw [hlrA]
    rw [assertLayout_str nB (Layouts.new cache).options.defaultLayout hnB]
    rw [createStackLoop_succ_push (Layouts.new cache).cache
      (Layouts.new cache).options.defaultLayout 2 (.str nB) (.str nA)
      [JSVal.str nA] tB htrB hprevB hB]
    rw [hlrB]
    rfl
  refine ⟨hstk, ?_⟩
  have hba : '{' ∉ b₁ ++ a₁ := by
    intro h
    rcases List.mem_append.mp h with h | h
    · exact hb1 h
    · exact ha1 h
  have hab : '{' ∉ a₂ ++ b₂ := by
    intro h
    rcases List.mem_append.mp h with h | h
    · exact ha2 h
    · exact hb2 h
  have hassoc : b₁ ++ (a₁ ++ bodyTag ++ a₂) ++ b₂ =
      (b₁ ++ a₁) ++ bodyTag ++ (a₂ ++ b₂) := by
    simp [List.append_assoc]
  have hsf := stackFn_some_eq (Layouts.new cache) (.str nA) Options.empty 4
    [JSVal.str nB, JSVal.str nA] hstk
  rw [mergeOptions_empty] at hsf
  rw [show (Layouts.new cache).options = defaultOptions from rfl] at hsf
  rw [makeTagFromOptions_default, makeRegexM_default] at hsf
  rw [foldStack_cons_start bodyTag defaultPat defaultOptions _
    (JSVal.str nB) tB [JSVal.str nA] hB] at hsf
  have hc1B : replacePat defaultPat tB.content bodyTag = tB.content := by
    have h := replacePat_single defaultPat defaultPat_isDefault tB.content
      [] [] (by simp) (by simp)
    simpa using h
  have hc2B : renderLayoutM defaultOptions tB.content =
      b₁ ++ bodyTag ++ b₂ := by
    rw [renderLayoutM_default, hcontB]
    exact replacePat_single defaultIpat defaultIpat_isDefault bodyTag
      b₁ b₂ hb1 hb2
  rw [hc1B, hc2B] at hsf
  rw [foldStack_cons_some bodyTag defaultPat defaultOptions _
    (JSVal.str nA) tA [] (b₁ ++ bodyTag ++ b₂) _ hA] at hsf
  have hc1A : replacePat defaultPat tA.content (b₁ ++ bodyTag ++ b₂) =
      b₁ ++ tA.content ++ b₂ :=
    replacePat_single defaultPat defaultPat_isDefault tA.content b₁ b₂ hb1 hb2
  have hc2A : renderLayoutM defaultOptions
      (b₁ ++ (a₁ ++ bodyTag ++ a₂) ++ b₂) =
      b₁ ++ (a₁ ++ bodyTag ++ a₂) ++ b₂ := by
    rw [renderLayoutM_default, hassoc]
    rw [replacePat_single defaultIpat defaultIpat_isDefault bodyTag
      (b₁ ++ a₁) (a₂ ++ b₂) hba hab]
  rw [hc1A, hcontA, hc2A, foldStack_nil] at hsf
  have hne : b₁ ++ (a₁ ++ bodyTag ++ a₂) ++ b₂ ≠ [] := by
    intro h
    have hlen := congrArg List.length h
    simp [List.length_append, bodyTag_eq] at hlen
  have hr := renderFn_some (Layouts.new cache) p (.str nA) Options.empty 4
    _ _ (b₁ ++ (a₁ ++ bodyTag ++ a₂) ++ b₂) hsf rfl hne
  rw [hr]
  simp only [Option.map_some']
  show some (replacePat defaultPat p (b₁ ++ (a₁ ++ bodyTag ++ a₂) ++ b₂)) =
    some (b₁ ++ a₁ ++ p ++ a₂ ++ b₂)
  rw [hassoc, replacePat_single defaultPat defaultPat_isDefault p
    (b₁ ++ a₁) (a₂ ++ b₂) hba hab]
  simp [List.append_assoc]

/-- A concrete two-layout chain store for instantiating the chain claim. -/
def storeC1 : Cache :=
  [ ("A", { content := "A1({%= body %})A2".toList, layout := JSVal.str "B" })
  , ("B", { content := "B1({%= body %})B2".toList, layout := JSVal.null }) ]

theorem c1_witness :
    createStackFn (Layouts.new storeC1) (.str "A") Options.empty 4 =
      some [JSVal.str "B", JSVal.str "A"] ∧
    (renderFn (Layouts.new storeC1) "page".toList (.str "A")
      Options.empty 4).map (fun q => q.2.content) =
      some ("B1(".toList ++ "A1(".toList ++ "page".toList ++ ")A2".toList ++
        ")B2".toList) :=
  c1_theorem storeC1 "A" "B"
    { content := "A1({%= body %})A2".toList, layout := JSVal.str "B" }
    { content := "B1({%= body %})B2".toList, layout := JSVal.null }
    "A1(".toList ")A2".toList "B1(".toList ")B2".toList "page".toList
    (by decide) (by decide) rfl rfl (by decide) (by decide) (by decide)
    (by decide) (by decide) (by decide) (by decide) (by decide) (by decide)
    (by decide)

/-- A registered template with a placeholder but no layout reference. -/
def storeC4w : Cache := [("n", { content := "N1({%= body %})N2".toList })]

theorem c4_witness :
    createStackFn (Layouts.new storeC4w) (.str "n") Options.empty 3 =
      some [JSVal.str "n"] ∧
    (renderFn (Layouts.new storeC4w) "pg".toList (.str "n")
      Options.empty 3).map (fun q => q.2.content) =
      some ("N1(".toList ++ "pg".toList ++ ")N2".toList) ∧
    (renderFn (Layouts.new []) "pg".toList .null Options.empty 2).map
      (fun q => q.2.content) = some "pg".toList :=
  ⟨c4_theorem.1 storeC4w "n"
      { content := "N1({%= body %})N2".toList }
      (by decide) (by decide) rfl rfl,
   c4_theorem.2.1 storeC4w "n"
      { content := "N1({%= body %})N2".toList }
      "N1(".toList ")N2".toList "pg".toList
      (by decide) (by decide) rfl rfl (by decide) (by decide) (by decide),
   c4_theorem.2.2 (Layouts.new []) "pg".toList .null (by decide)⟩
